import Mathlib

/-!
Verification development for the bilibili audio/video → MP3 batch converter
(repository files `biliAudioToMp3_.py` and `mp4Tomp3.py`).

The two Python scripts are shallowly embedded here:

* namespace `BiliAudio` models `biliAudioToMp3_.py` (descriptor-based
  converter: an `entry.json` descriptor names the title, the audio stream is
  located next to it, and one ffmpeg invocation transcodes it to MP3);
* namespace `Mp4ToMp3` models `mp4Tomp3.py` (direct-media converter: every
  video file is a unit; ffmpeg first demuxes the audio stream into a
  temporary `.aac` file, a second invocation transcodes it to MP3).

External effects (reading the descriptor, `os.makedirs`, the ffmpeg
subprocesses, `os.remove`) are modelled as per-unit oracles of type
`Except PyExc _`: `.error e` means the Python call raised, `.ok v` is its
return value.  The output directory's contents are an association list from
file name to size (`FileState`); a successful encoder invocation writes a
non-empty destination file (exit code 0 must produce a valid MP3), a failed
or raising invocation writes nothing.  The encoder-call counter counts
completed ffmpeg invocations.  The progress callback never raises and its
arguments are recorded in order in an `events` list.  The worker pool is
modelled as sequential execution in dispatch order: the per-unit tallies are
updated under a lock in the source, so the aggregate counts are
order-independent.
-/

deriving instance DecidableEq for Except

/-- A raised Python exception; only its identity matters to the model. -/
structure PyExc where
  msg : String
deriving DecidableEq

/-- Contents of the output directory: file name ↦ size in bytes. -/
abbrev FileState := List (String × Nat)

/-- Python `os.path.exists(p) and os.path.getsize(p) > 0` over the modelled
output directory. -/
def fileExistsPos (fs : FileState) (n : String) : Bool :=
  match fs.lookup n with
  | some sz => decide (0 < sz)
  | none => false

/-- The reserved characters stripped by both scripts:
`invalid_chars = {'\\', '/', ':', '*', '?', '"', '<', '>', '|'}`. -/
def invalid_chars : List Char := ['\\', '/', ':', '*', '?', '"', '<', '>', '|']

/-- The cleaning step shared verbatim by `extract_title_name`
(`biliAudioToMp3_.py`) and `get_video_name` (`mp4Tomp3.py`):
`''.join(c for c in name if c not in invalid_chars)` followed by
`if len(name) > 150: name = name[:150]`. -/
def sanitizeChars (s : List Char) : List Char :=
  let cleaned := s.filter (fun c => !invalid_chars.contains c)
  if cleaned.length > 150 then cleaned.take 150 else cleaned

/-- String form of the cleaning step. -/
def sanitizeName (s : String) : String :=
  String.mk (sanitizeChars s.data)

namespace BiliAudio

/-- `extract_title_name` of `biliAudioToMp3_.py`.  Its argument is the
outcome of opening and JSON-parsing the descriptor: `.error e` when
`open`/`json.load`/field access raised (the function's own `try` turns that
into `None`), `.ok t` when parsing succeeded with `t` the optional string
`title` field (`data.get('title', 'untitled')` defaults a missing field). -/
def extract_title_name (descriptor : Except PyExc (Option String)) : Option String :=
  match descriptor with
  | .error _ => none
  | .ok t => some (sanitizeName (t.getD "untitled"))

/-- One discovered `entry.json` unit together with the oracles for its
external effects. -/
structure BiliUnit where
  /-- Outcome of reading and parsing the descriptor (see `extract_title_name`). -/
  descriptor : Except PyExc (Option String)
  /-- `find_audio_file_cached(json_dir)`: raised, found nothing, or a path. -/
  findAudio : Except PyExc (Option String)
  /-- `os.makedirs(output_dir, exist_ok=True)`. -/
  makedirs : Except PyExc Unit
  /-- `subprocess.run(['ffmpeg', ...])`: raised, or `returncode == 0`. -/
  encoder : Except PyExc Bool
deriving DecidableEq

/-- Observable result of one `process_single_file` call. -/
structure BiliOutcome where
  /-- The returned boolean. -/
  success : Bool
  /-- Output-directory contents afterwards. -/
  fs : FileState
  /-- Number of completed encoder invocations. -/
  encoderCalls : Nat
  /-- Arguments passed to `progress_callback`, in order. -/
  events : List Bool
deriving DecidableEq

/-- The body of `process_single_file`'s `try` block (`biliAudioToMp3_.py`
lines 93–144): name resolution, audio lookup, `os.makedirs`, the
skip-if-exists check, and the single ffmpeg transcode.  `.error e` means the
block raised `e` (to be caught by the `except` at the unit boundary). -/
def process_body (u : BiliUnit) (fs : FileState) : Except PyExc BiliOutcome :=
  match extract_title_name u.descriptor with
  | none => .ok ⟨false, fs, 0, [false]⟩
  | some part_name =>
    if part_name = "" then .ok ⟨false, fs, 0, [false]⟩
    else
      match u.findAudio with
      | .error e => .error e
      | .ok none => .ok ⟨false, fs, 0, [false]⟩
      | .ok (some _audio_path) =>
        match u.makedirs with
        | .error e => .error e
        | .ok _ =>
          if fileExistsPos fs (part_name ++ ".mp3") then
            .ok ⟨true, fs, 0, [true]⟩
          else
            match u.encoder with
            | .error e => .error e
            | .ok true => .ok ⟨true, (part_name ++ ".mp3", 1) :: fs, 1, [true]⟩
            | .ok false => .ok ⟨false, fs, 1, [false]⟩

/-- `process_single_file` of `biliAudioToMp3_.py`: the `try` body wrapped in
the unit-boundary `except Exception`, which prints, reports `False` to the
callback and returns `False`. -/
def process_single_file (u : BiliUnit) (fs : FileState) : BiliOutcome :=
  match process_body u fs with
  | .ok o => o
  | .error _ => ⟨false, fs, 0, [false]⟩

/-- Accumulated result of running a list of units through the pool. -/
structure RunAcc where
  /-- The `success` counter. -/
  success : Nat
  /-- Output-directory contents afterwards. -/
  fs : FileState
  /-- Total completed encoder invocations. -/
  encoderCalls : Nat
  /-- Per-unit boolean results, in order (what the tally counts). -/
  outcomes : List Bool
  /-- All `progress_callback` arguments, in order. -/
  events : List Bool
deriving DecidableEq

/-- The pool of `task_wrapper` calls, modelled sequentially in dispatch
order; each task runs `process_single_file` and bumps the lock-protected
counters exactly once. -/
def run_units : List BiliUnit → FileState → RunAcc
  | [], fs => ⟨0, fs, 0, [], []⟩
  | u :: rest, fs =>
    let o := process_single_file u fs
    let r := run_units rest o.fs
    ⟨(if o.success then 1 else 0) + r.success, r.fs,
      o.encoderCalls + r.encoderCalls, o.success :: r.outcomes, o.events ++ r.events⟩

/-- Result of `process_folders_parallel`. -/
structure BatchResult where
  /-- `total`, the number of discovered units. -/
  total : Nat
  /-- `success`, the number of units whose task returned `True`. -/
  success : Nat
  /-- Output-directory contents afterwards. -/
  fs : FileState
  /-- Total completed encoder invocations. -/
  encoderCalls : Nat
  /-- Per-unit boolean results, in order. -/
  outcomes : List Bool
  /-- All `progress_callback` arguments, in order. -/
  events : List Bool
  /-- The function begins with `os.makedirs(output_dir)` if absent. -/
  outputDirEnsured : Bool
deriving DecidableEq

/-- `process_folders_parallel` of `biliAudioToMp3_.py`: ensure the output
directory, enumerate all units up front, return `(0, 0)` when none were
found, otherwise dispatch every unit and tally the outcomes. -/
def process_folders_parallel (units : List BiliUnit) (fs : FileState) : BatchResult :=
  if units.isEmpty then ⟨0, 0, fs, 0, [], [], true⟩
  else
    let r := run_units units fs
    ⟨units.length, r.success, r.fs, r.encoderCalls, r.outcomes, r.events, true⟩

/-- Worker-pool size chosen by `process_folders_parallel` when
`max_workers is None`: `logical_cores - 1`, with no lower bound. -/
def default_max_workers (logical_cores : Nat) : Nat :=
  logical_cores - 1

/-- `task_wrapper` of `biliAudioToMp3_.py`: passes `progress_callback`
straight through to `process_single_file` and returns its result.
Components: result, file state, callback events. -/
def task_wrapper (u : BiliUnit) (fs : FileState) : Bool × FileState × List Bool :=
  let o := process_single_file u fs
  (o.success, o.fs, o.events)

end BiliAudio

namespace BiliAudio

mutual

/-- A directory subtree rooted at the descriptor's directory: the file
names it holds directly and its named subdirectories. -/
inductive FsTree where
  /-- A directory with its files and subdirectories, in listing order. -/
  | node (files : List String) (subdirs : FsForest)

/-- A list of named subdirectories, in listing order. -/
inductive FsForest where
  /-- No further subdirectories. -/
  | nil
  /-- A subdirectory and the ones after it. -/
  | cons (name : String) (tree : FsTree) (rest : FsForest)

end

/-- Files directly inside the root of a subtree. -/
def FsTree.files : FsTree → List String
  | .node fs _ => fs

/-- `audio_extensions = ['.m4a', '.mp4', '.aac', '.flv', '.m4s']`. -/
def audio_extensions : List String := [".m4a", ".mp4", ".aac", ".flv", ".m4s"]

/-- `common_audio_dirs = {'audio', 'sound', 'voice', 'music'}`. -/
def common_audio_dirs : List String := ["audio", "sound", "voice", "music"]

/-- Python `str.lower()`, code point by code point (only ASCII letters
occur in the names the scripts compare against). -/
def pyLower (s : String) : String :=
  String.mk (s.data.map Char.toLower)

/-- Python `str.endswith(suffix)`. -/
def pyEndsWith (s suffix : String) : Bool :=
  List.isSuffixOf suffix.data s.data

/-- Python `str.startswith(p)`. -/
def pyStartsWith (s p : String) : Bool :=
  List.isPrefixOf p.data s.data

/-- `any(file_lower.endswith(ext) for ext in audio_extensions)`. -/
def isAudioFile (file : String) : Bool :=
  audio_extensions.any (fun ext => pyEndsWith (pyLower file) ext)

/-- The in-place pruning `dirs[:] = [d for d in dirs if d.lower() in
common_audio_dirs or not d.startswith('.')]`. -/
def keepDir (d : String) : Bool :=
  common_audio_dirs.contains (pyLower d) || !(pyStartsWith d ".")

mutual

/-- The `os.walk(json_dir)` loop of `find_audio_file` (`biliAudioToMp3_.py`
lines 46–62): visiting a root at the given depth below `json_dir`, skip it
entirely when the depth exceeds 2 (`del dirs[:]; continue`), otherwise
return the first file whose lowercased name ends in a known audio extension
(the loop returns it immediately whether or not it starts with `audio`),
and failing that descend into the kept subdirectories in order.  Paths are
lists of components relative to `json_dir`. -/
def walkFind : FsTree → List String → Nat → Option (List String)
  | .node files subdirs, path, depth =>
    if depth > 2 then none
    else
      match files.find? isAudioFile with
      | some f => some (path ++ [f])
      | none => walkFindList subdirs path depth
termination_by structural t => t

/-- Descend into the (pruned) subdirectories of a visited root, in order. -/
def walkFindList : FsForest → List String → Nat → Option (List String)
  | .nil, _, _ => none
  | .cons d t rest, path, depth =>
    if keepDir d then
      match walkFind t (path ++ [d]) (depth + 1) with
      | some r => some r
      | none => walkFindList rest path depth
    else walkFindList rest path depth
termination_by structural l => l

end

mutual

/-- All files the walk of `find_audio_file` would accept, in walk order:
the characterization used to show the walk returns its first match. -/
def walkMatches : FsTree → List String → Nat → List (List String)
  | .node files subdirs, path, depth =>
    if depth > 2 then []
    else
      (files.filter isAudioFile).map (fun f => path ++ [f]) ++
        walkMatchesList subdirs path depth
termination_by structural t => t

/-- Walk-order matches of a list of subdirectories. -/
def walkMatchesList : FsForest → List String → Nat → List (List String)
  | .nil, _, _ => []
  | .cons d t rest, path, depth =>
    if keepDir d then
      walkMatches t (path ++ [d]) (depth + 1) ++ walkMatchesList rest path depth
    else walkMatchesList rest path depth
termination_by structural l => l

end

/-- `find_audio_file` of `biliAudioToMp3_.py`: first probe the descriptor's
own directory for the well-known names `audio.m4a`, `audio.mp4`,
`audio.aac`, `audio.flv`, `audio.m4s` in priority order
(`os.path.exists(os.path.join(json_dir, f'audio{ext}'))`), then fall back
to the depth-limited walk. -/
def find_audio_file (t : FsTree) : Option (List String) :=
  match audio_extensions.find? (fun ext => t.files.contains ("audio" ++ ext)) with
  | some ext => some ["audio" ++ ext]
  | none => walkFind t [] 0

end BiliAudio


namespace Mp4ToMp3

/-- `get_video_name` of `mp4Tomp3.py`, applied to the base file name with
its extension already stripped (`os.path.basename` + `os.path.splitext` are
pure path arithmetic): the shared cleaning step. -/
def get_video_name (name : String) : String :=
  sanitizeName name

/-- One discovered video-file unit together with the oracles for its
external effects. -/
structure Mp4Unit where
  /-- Base file name of the video, extension stripped. -/
  baseName : String
  /-- `os.makedirs(output_dir, exist_ok=True)`. -/
  makedirs : Except PyExc Unit
  /-- First ffmpeg call (lossless stream copy into the temp `.aac`):
  raised, or `returncode == 0`. -/
  demux : Except PyExc Bool
  /-- Whether a failed or raising demux left the temp file behind;
  a successful demux always writes it. -/
  demuxWrites : Bool
  /-- Second ffmpeg call (transcode temp → MP3): raised, or `returncode == 0`. -/
  convert : Except PyExc Bool
  /-- Whether `os.remove(temp_aac)` succeeds (`false` = it raises). -/
  removeOk : Bool
deriving DecidableEq

/-- Observable result of one `process_single_file` call of `mp4Tomp3.py`. -/
structure Mp4Outcome where
  /-- The returned boolean. -/
  success : Bool
  /-- Output-directory contents afterwards. -/
  fs : FileState
  /-- Whether the temporary `.aac` file still exists at exit. -/
  tempExists : Bool
  /-- Number of completed encoder invocations. -/
  encoderCalls : Nat
  /-- Arguments passed to `progress_callback`, in order. -/
  events : List Bool
deriving DecidableEq

/-- The body of the outer `try` of `process_single_file` (`mp4Tomp3.py`
lines 47–114): name resolution, `os.makedirs`, the skip-if-exists check,
then the inner `try/except/finally` around the two ffmpeg calls.  The inner
`except Exception` already converts demux/convert failures and exceptions
into a `False` result, and the `finally` deletes the temp file when it
exists, swallowing (only logging) a raising `os.remove`.  `.error e` means
the outer block raised `e`. -/
def process_body (u : Mp4Unit) (fs : FileState) : Except PyExc Mp4Outcome :=
  let video_name := get_video_name u.baseName
  if video_name = "" then .ok ⟨false, fs, false, 0, [false]⟩
  else
    match u.makedirs with
    | .error e => .error e
    | .ok _ =>
      if fileExistsPos fs (video_name ++ ".mp3") then
        .ok ⟨true, fs, false, 0, [true]⟩
      else
        let inner : Mp4Outcome :=
          match u.demux with
          | .error _ => ⟨false, fs, u.demuxWrites, 1, [false]⟩
          | .ok false => ⟨false, fs, u.demuxWrites, 1, [false]⟩
          | .ok true =>
            match u.convert with
            | .error _ => ⟨false, fs, true, 2, [false]⟩
            | .ok false => ⟨false, fs, true, 2, [false]⟩
            | .ok true => ⟨true, (video_name ++ ".mp3", 1) :: fs, true, 2, [true]⟩
        .ok ⟨inner.success, inner.fs, inner.tempExists && !u.removeOk,
          inner.encoderCalls, inner.events⟩

/-- `process_single_file` of `mp4Tomp3.py`: the outer body wrapped in the
unit-boundary `except Exception`. -/
def process_single_file (u : Mp4Unit) (fs : FileState) : Mp4Outcome :=
  match process_body u fs with
  | .ok o => o
  | .error _ => ⟨false, fs, false, 0, [false]⟩

/-- `task_wrapper` of `mp4Tomp3.py`: runs `process_single_file` with the
wrapping lambda that forwards the boolean flag to `progress_callback`, then
under the lock additionally calls `progress_callback(None)`.
Components: result, file state, callback events (`none` = Python `None`). -/
def task_wrapper (u : Mp4Unit) (fs : FileState) :
    Bool × FileState × List (Option Bool) :=
  let o := process_single_file u fs
  (o.success, o.fs, o.events.map some ++ [none])

/-- Accumulated result of running a list of units through the pool. -/
structure RunAcc where
  /-- The `success` counter. -/
  success : Nat
  /-- Output-directory contents afterwards. -/
  fs : FileState
  /-- Total completed encoder invocations. -/
  encoderCalls : Nat
  /-- Per-unit boolean results, in order (what the tally counts). -/
  outcomes : List Bool
  /-- All `progress_callback` arguments, in order. -/
  events : List (Option Bool)
deriving DecidableEq

/-- The pool of `task_wrapper` calls, modelled sequentially in dispatch
order. -/
def run_units : List Mp4Unit → FileState → RunAcc
  | [], fs => ⟨0, fs, 0, [], []⟩
  | u :: rest, fs =>
    let t := task_wrapper u fs
    let r := run_units rest t.2.1
    ⟨(if t.1 then 1 else 0) + r.success, r.fs,
      (process_single_file u fs).encoderCalls + r.encoderCalls,
      t.1 :: r.outcomes, t.2.2 ++ r.events⟩

/-- Result of `process_folders_parallel` of `mp4Tomp3.py`. -/
structure BatchResult where
  /-- `total`, the number of discovered units. -/
  total : Nat
  /-- `success`, the number of units whose task returned `True`. -/
  success : Nat
  /-- Output-directory contents afterwards. -/
  fs : FileState
  /-- Total completed encoder invocations. -/
  encoderCalls : Nat
  /-- Per-unit boolean results, in order. -/
  outcomes : List Bool
  /-- All `progress_callback` arguments, in order. -/
  events : List (Option Bool)
  /-- The function begins with `os.makedirs(output_dir)` if absent. -/
  outputDirEnsured : Bool
deriving DecidableEq

/-- `process_folders_parallel` of `mp4Tomp3.py`. -/
def process_folders_parallel (units : List Mp4Unit) (fs : FileState) : BatchResult :=
  if units.isEmpty then ⟨0, 0, fs, 0, [], [], true⟩
  else
    let r := run_units units fs
    ⟨units.length, r.success, r.fs, r.encoderCalls, r.outcomes, r.events, true⟩

/-- Worker-pool size chosen by `process_folders_parallel` when
`max_workers is None`: `max(1, logical_cores - 1)`. -/
def default_max_workers (logical_cores : Nat) : Nat :=
  max 1 (logical_cores - 1)

end Mp4ToMp3

example :
    BiliAudio.find_audio_file
      (.node [] (.cons "s" (.node ["b.mp4", "audio.m4a"] .nil) .nil)) =
      some ["s", "b.mp4"] := by
  decide

example :
    BiliAudio.find_audio_file
      (.node ["x.txt", "audio.m4a"] (.cons "s" (.node ["b.mp4"] .nil) .nil)) =
      some ["audio.m4a"] := by
  decide

example :
    BiliAudio.walkFind
      (.node []
        (.cons "a"
          (.node [] (.cons "b" (.node [] (.cons "c" (.node ["d.mp4"] .nil) .nil)) .nil))
          .nil))
      [] 0 = none := by
  decide

example :
    BiliAudio.walkFind
      (.node [] (.cons "a" (.node [] (.cons "b" (.node ["d.mp4"] .nil) .nil)) .nil))
      [] 0 = some ["a", "b", "d.mp4"] := by
  decide

example :
    Mp4ToMp3.process_single_file
      ⟨"clip", Except.ok (), Except.ok true, true, Except.ok true, true⟩ [] =
      ⟨true, [("clip.mp3", 1)], false, 2, [true]⟩ := by decide

example :
    Mp4ToMp3.task_wrapper
      ⟨"clip", Except.ok (), Except.ok true, true, Except.ok true, true⟩ [] =
      (true, [("clip.mp3", 1)], [some true, none]) := by decide

example :
    BiliAudio.process_single_file
      ⟨Except.ok (some "a"), Except.ok (some "x"), Except.ok (), Except.ok true⟩ [] =
      ⟨true, [("a.mp3", 1)], 1, [true]⟩ := by decide

/-! Helper lemmas about the shared name-cleaning step. -/

theorem sanitizeChars_eq_take (s : List Char) :
    sanitizeChars s = (s.filter (fun c => !invalid_chars.contains c)).take 150 := by
  simp only [sanitizeChars]
  split
  · rfl
  · rename_i h
    exact (List.take_of_length_le (by omega)).symm

theorem sanitizeChars_mem (s : List Char) (c : Char) (hc : c ∈ sanitizeChars s) :
    (!invalid_chars.contains c) = true := by
  rw [sanitizeChars_eq_take] at hc
  exact (List.mem_filter.mp (List.take_subset _ _ hc)).2

theorem sanitizeChars_length (s : List Char) : (sanitizeChars s).length ≤ 150 := by
  rw [sanitizeChars_eq_take]
  exact List.length_take_le _ _

theorem sanitizeChars_idem (s : List Char) :
    sanitizeChars (sanitizeChars s) = sanitizeChars s := by
  rw [sanitizeChars_eq_take (sanitizeChars s),
    List.filter_eq_self.mpr (fun c hc => sanitizeChars_mem s c hc)]
  exact List.take_of_length_le (sanitizeChars_length s)

theorem sanitizeName_def (s : String) :
    sanitizeName s = String.mk (sanitizeChars s.data) := rfl

/-- Claim C4: the cleaning step shared by `extract_title_name` and
`get_video_name` is idempotent, its output never exceeds 150 characters,
and its output contains none of the reserved characters
`\ / : * ? " < > |`. -/
theorem claim_C4_sanitizer_idempotent_bounded (s : String) :
    sanitizeName (sanitizeName s) = sanitizeName s ∧
      (sanitizeName s).length ≤ 150 ∧
      (sanitizeName s).data.all (fun c => !invalid_chars.contains c) = true := by
  refine ⟨?_, ?_, ?_⟩
  · show String.mk (sanitizeChars (sanitizeChars s.data)) = String.mk (sanitizeChars s.data)
    rw [sanitizeChars_idem]
  · show (sanitizeChars s.data).length ≤ 150
    exact sanitizeChars_length s.data
  · exact List.all_eq_true.mpr (fun c hc => sanitizeChars_mem s.data c hc)

/-! Helper lemmas about the two converters' callback discipline. -/

namespace BiliAudio

theorem events_eq_success (u : BiliUnit) (fs : FileState) :
    (process_single_file u fs).events = [(process_single_file u fs).success] := by
  rcases u with ⟨d, a, m, e⟩
  rcases d with ed | t
  · rfl
  by_cases hn : sanitizeName (t.getD "untitled") = ""
  · simp [process_single_file, process_body, extract_title_name, hn]
  rcases a with ea | oa
  · simp [process_single_file, process_body, extract_title_name, hn]
  rcases oa with _ | pa
  · simp [process_single_file, process_body, extract_title_name, hn]
  rcases m with em | mu
  · simp [process_single_file, process_body, extract_title_name, hn]
  by_cases hf : fileExistsPos fs (sanitizeName (t.getD "untitled") ++ ".mp3") = true
  · simp [process_single_file, process_body, extract_title_name, hn, hf]
  rcases e with ee | be
  · simp [process_single_file, process_body, extract_title_name, hn, hf]
  cases be <;> simp [process_single_file, process_body, extract_title_name, hn, hf]

end BiliAudio

namespace Mp4ToMp3

theorem mp4_events_eq_success (u : Mp4Unit) (fs : FileState) :
    (process_single_file u fs).events = [(process_single_file u fs).success] := by
  rcases u with ⟨n, m, d, w, c, r⟩
  by_cases hn : sanitizeName n = ""
  · simp [process_single_file, process_body, get_video_name, hn]
  rcases m with em | mu
  · simp [process_single_file, process_body, get_video_name, hn]
  by_cases hf : fileExistsPos fs (sanitizeName n ++ ".mp3") = true
  · simp [process_single_file, process_body, get_video_name, hn, hf]
  rcases d with ed | bd
  · simp [process_single_file, process_body, get_video_name, hn, hf]
  cases bd
  · simp [process_single_file, process_body, get_video_name, hn, hf]
  rcases c with ec | bc
  · simp [process_single_file, process_body, get_video_name, hn, hf]
  cases bc <;> simp [process_single_file, process_body, get_video_name, hn, hf]

end Mp4ToMp3

/-- Claim C10: in both converters, `process_single_file` invokes the
supplied progress callback exactly once, and the boolean it passes is
exactly the boolean the function returns — so the call returns `True` if
and only if the callback was invoked with `True`. -/
theorem claim_C10_result_matches_callback (u : BiliAudio.BiliUnit)
    (v : Mp4ToMp3.Mp4Unit) (fs fs' : FileState) :
    (BiliAudio.process_single_file u fs).events =
        [(BiliAudio.process_single_file u fs).success] ∧
      (Mp4ToMp3.process_single_file v fs').events =
        [(Mp4ToMp3.process_single_file v fs').success] :=
  ⟨BiliAudio.events_eq_success u fs, Mp4ToMp3.mp4_events_eq_success v fs'⟩

/-- Claim C9 counterexample: for a concrete successfully converted unit,
the direct-media scheduler's `task_wrapper` passes two events to the
progress callback — the unit's boolean flag and then a `None` progress
tick — so it does not emit exactly one event whose argument is always the
boolean success flag. -/
theorem claim_C9_counterexample :
    (Mp4ToMp3.task_wrapper
        ⟨"clip", Except.ok (), Except.ok true, true, Except.ok true, true⟩ []).2.2 =
      [some true, none] ∧
      (Mp4ToMp3.task_wrapper
          ⟨"clip", Except.ok (), Except.ok true, true, Except.ok true, true⟩ []).2.2 ≠
        [some true] := by
  decide

/-- Claim C9 (amended): the descriptor-based scheduler's `task_wrapper`
emits exactly one outcome event per unit, carrying the unit's boolean
success flag; the direct-media scheduler's `task_wrapper` emits that event
followed by exactly one additional event with argument `None` (a progress
tick carrying no outcome). -/
theorem claim_C9_amended_events_per_unit (u : BiliAudio.BiliUnit)
    (v : Mp4ToMp3.Mp4Unit) (fs fs' : FileState) :
    (BiliAudio.task_wrapper u fs).2.2 =
        [(BiliAudio.process_single_file u fs).success] ∧
      (Mp4ToMp3.task_wrapper v fs').2.2 =
        [some (Mp4ToMp3.process_single_file v fs').success, none] := by
  constructor
  · exact BiliAudio.events_eq_success u fs
  · show (Mp4ToMp3.process_single_file v fs').events.map some ++ [none] = _
    rw [Mp4ToMp3.mp4_events_eq_success]
    rfl

/-- Claim C8: in the direct-media converter, whenever `os.remove` succeeds
the temporary intermediate file is gone at every exit of
`process_single_file` (success, encoder failure, or unexpected exception),
and a failing `os.remove` never changes the unit's success/failure
outcome. -/
theorem claim_C8_temp_file_always_deleted (n : String) (m : Except PyExc Unit)
    (d : Except PyExc Bool) (w : Bool) (c : Except PyExc Bool) (fs : FileState) :
    (Mp4ToMp3.process_single_file ⟨n, m, d, w, c, true⟩ fs).tempExists = false ∧
      (Mp4ToMp3.process_single_file ⟨n, m, d, w, c, false⟩ fs).success =
        (Mp4ToMp3.process_single_file ⟨n, m, d, w, c, true⟩ fs).success := by
  constructor <;>
    · by_cases hn : sanitizeName n = ""
      · simp [Mp4ToMp3.process_single_file, Mp4ToMp3.process_body,
          Mp4ToMp3.get_video_name, hn]
      rcases m with em | mu
      · simp [Mp4ToMp3.process_single_file, Mp4ToMp3.process_body,
          Mp4ToMp3.get_video_name, hn]
      by_cases hf : fileExistsPos fs (sanitizeName n ++ ".mp3") = true
      · simp [Mp4ToMp3.process_single_file, Mp4ToMp3.process_body,
          Mp4ToMp3.get_video_name, hn, hf]
      rcases d with ed | bd
      · simp [Mp4ToMp3.process_single_file, Mp4ToMp3.process_body,
          Mp4ToMp3.get_video_name, hn, hf]
      cases bd
      · simp [Mp4ToMp3.process_single_file, Mp4ToMp3.process_body,
          Mp4ToMp3.get_video_name, hn, hf]
      rcases c with ec | bc
      · simp [Mp4ToMp3.process_single_file, Mp4ToMp3.process_body,
          Mp4ToMp3.get_video_name, hn, hf]
      cases bc <;>
        simp [Mp4ToMp3.process_single_file, Mp4ToMp3.process_body,
          Mp4ToMp3.get_video_name, hn, hf]

/-! Helper lemmas about the audio-file walk. -/

theorem find?_eq_filter_head? {α : Type} (p : α → Bool) (l : List α) :
    l.find? p = (l.filter p).head? := by
  induction l with
  | nil => rfl
  | cons a l ih =>
    cases h : p a
    · rw [List.find?_cons_of_neg _ (by simp [h]), List.filter_cons_of_neg (by simp [h])]
      exact ih
    · rw [List.find?_cons_of_pos _ h, List.filter_cons_of_pos h]
      rfl

namespace BiliAudio

mutual

theorem walkFind_eq_matches_head :
    ∀ (t : FsTree) (path : List String) (depth : Nat),
      walkFind t path depth = (walkMatches t path depth).head?
  | .node files subdirs, path, depth => by
    simp only [walkFind, walkMatches]
    by_cases hd : depth > 2
    · rw [if_pos hd, if_pos hd]
      rfl
    · rw [if_neg hd, if_neg hd, find?_eq_filter_head?]
      cases hfil : files.filter isAudioFile with
      | nil => simp [walkFindList_eq_matches_head subdirs path depth]
      | cons f fl => simp
termination_by structural t => t

theorem walkFindList_eq_matches_head :
    ∀ (l : FsForest) (path : List String) (depth : Nat),
      walkFindList l path depth = (walkMatchesList l path depth).head?
  | .nil, _, _ => rfl
  | .cons d t rest, path, depth => by
    simp only [walkFindList, walkMatchesList]
    by_cases hk : keepDir d = true
    · rw [if_pos hk, if_pos hk, walkFind_eq_matches_head t (path ++ [d]) (depth + 1)]
      cases hm : walkMatches t (path ++ [d]) (depth + 1) with
      | nil => simp [walkFindList_eq_matches_head rest path depth]
      | cons a as => simp
    · rw [if_neg hk, if_neg hk]
      exact walkFindList_eq_matches_head rest path depth
termination_by structural l => l

end

mutual

theorem walkFind_depth_bound :
    ∀ (t : FsTree) (path : List String) (depth : Nat) (r : List String),
      walkFind t path depth = some r → r.length + depth ≤ path.length + 3
  | .node files subdirs, path, depth, r => by
    intro h
    simp only [walkFind] at h
    by_cases hd : depth > 2
    · simp [hd] at h
    · rw [if_neg hd] at h
      cases hfind : files.find? isAudioFile with
      | some f =>
        rw [hfind] at h
        cases h
        simp only [List.length_append, List.length_cons, List.length_nil]
        omega
      | none =>
        rw [hfind] at h
        exact walkFindList_depth_bound subdirs path depth r h
termination_by structural t => t

theorem walkFindList_depth_bound :
    ∀ (l : FsForest) (path : List String) (depth : Nat) (r : List String),
      walkFindList l path depth = some r → r.length + depth ≤ path.length + 3
  | .nil, path, depth, r => by
    intro h
    simp [walkFindList] at h
  | .cons d t rest, path, depth, r => by
    intro h
    simp only [walkFindList] at h
    by_cases hk : keepDir d = true
    · rw [if_pos hk] at h
      cases hw : walkFind t (path ++ [d]) (depth + 1) with
      | some r2 =>
        rw [hw] at h
        have hr : r2 = r := Option.some.inj h
        subst hr
        have hb := walkFind_depth_bound t (path ++ [d]) (depth + 1) r2 hw
        simp only [List.length_append, List.length_cons, List.length_nil] at hb
        omega
      | none =>
        rw [hw] at h
        exact walkFindList_depth_bound rest path depth r h
    · rw [if_neg hk] at h
      exact walkFindList_depth_bound rest path depth r h
termination_by structural l => l

end

end BiliAudio

/-- Claim C5 counterexample: a descriptor directory with no well-known
`audio.*` file of its own, whose subdirectory `s` lists `b.mp4` before
`audio.m4a`.  `audio.m4a` is a matching file literally named `audio.*`
inside the searched subtree (1 level down), yet `find_audio_file` returns
`s/b.mp4`: the walk returns the first matching file in walk order and never
prefers `audio.*`. -/
theorem claim_C5_counterexample :
    BiliAudio.find_audio_file
        (.node [] (.cons "s" (.node ["b.mp4", "audio.m4a"] .nil) .nil)) =
      some ["s", "b.mp4"] ∧
      ["s", "audio.m4a"] ∈
        BiliAudio.walkMatches
          (.node [] (.cons "s" (.node ["b.mp4", "audio.m4a"] .nil) .nil)) [] 0 ∧
      BiliAudio.isAudioFile "audio.m4a" = true ∧
      BiliAudio.pyStartsWith "audio.m4a" "audio" = true ∧
      BiliAudio.pyStartsWith "b.mp4" "audio" = false ∧
      (BiliAudio.audio_extensions.all fun ext =>
        !((BiliAudio.FsTree.node []
            (.cons "s" (.node ["b.mp4", "audio.m4a"] .nil) .nil)).files.contains
          ("audio" ++ ext))) = true := by
  decide

/-- Claim C5 (amended): when no well-known audio filename exists in the
descriptor's own directory, `find_audio_file` walks the subtree visiting at
most 2 additional directory levels (every returned path has at most 2
directory components plus the file name) and returns the FIRST file in walk
order whose lowercased extension is in the known audio-container list —
a file literally named `audio.*` elsewhere in the subtree is not preferred
over an earlier match. -/
theorem claim_C5_walk_first_match_depth_bounded (t : BiliAudio.FsTree) :
    (∀ r : List String, BiliAudio.find_audio_file t = some r → r.length ≤ 3) ∧
      ((BiliAudio.audio_extensions.all fun ext =>
          !(t.files.contains ("audio" ++ ext))) = true →
        BiliAudio.find_audio_file t = (BiliAudio.walkMatches t [] 0).head?) := by
  constructor
  · intro r h
    simp only [BiliAudio.find_audio_file] at h
    cases hp : BiliAudio.audio_extensions.find?
        (fun ext => t.files.contains ("audio" ++ ext)) with
    | some ext =>
      rw [hp] at h
      cases h
      simp
    | none =>
      rw [hp] at h
      have := BiliAudio.walkFind_depth_bound t [] 0 r h
      simpa using this
  · intro hall
    have hnone : BiliAudio.audio_extensions.find?
        (fun ext => t.files.contains ("audio" ++ ext)) = none := by
      rw [List.find?_eq_none]
      intro ext hext
      have := List.all_eq_true.mp hall ext hext
      simpa using this
    simp only [BiliAudio.find_audio_file, hnone]
    exact BiliAudio.walkFind_eq_matches_head t [] 0

/-- Witness for claim C5 (amended) at a concrete subtree with no well-known
audio file in its root. -/
theorem claim_C5_witness :
    (["s", "b.mp4"] : List String).length ≤ 3 ∧
      BiliAudio.find_audio_file
          (.node ["x.txt"] (.cons "s" (.node ["b.mp4"] .nil) .nil)) =
        (BiliAudio.walkMatches
            (.node ["x.txt"] (.cons "s" (.node ["b.mp4"] .nil) .nil)) [] 0).head? :=
  ⟨(claim_C5_walk_first_match_depth_bounded
        (.node ["x.txt"] (.cons "s" (.node ["b.mp4"] .nil) .nil))).1
      ["s", "b.mp4"] (by decide),
    (claim_C5_walk_first_match_depth_bounded
        (.node ["x.txt"] (.cons "s" (.node ["b.mp4"] .nil) .nil))).2 (by decide)⟩

/-! Helper lemmas about the batch tallies. -/

theorem bool_count_true_add_false (l : List Bool) :
    l.count true + l.count false = l.length := by
  induction l with
  | nil => rfl
  | cons b l ih => cases b <;> simp [List.count_cons] <;> omega

namespace BiliAudio

theorem run_units_outcomes_length (units : List BiliUnit) :
    ∀ fs : FileState, (run_units units fs).outcomes.length = units.length := by
  induction units with
  | nil => intro fs; rfl
  | cons u rest ih =>
    intro fs
    simp only [run_units, List.length_cons]
    rw [ih]

theorem run_units_success_count (units : List BiliUnit) :
    ∀ fs : FileState,
      (run_units units fs).success = (run_units units fs).outcomes.count true := by
  induction units with
  | nil => intro fs; rfl
  | cons u rest ih =>
    intro fs
    simp only [run_units, List.count_cons]
    rw [ih]
    cases h : (process_single_file u fs).success with
    | false => simp
    | true => simp; omega

end BiliAudio

namespace Mp4ToMp3

theorem mp4_run_units_outcomes_length (units : List Mp4Unit) :
    ∀ fs : FileState, (run_units units fs).outcomes.length = units.length := by
  induction units with
  | nil => intro fs; rfl
  | cons u rest ih =>
    intro fs
    simp only [run_units, List.length_cons]
    rw [ih]

theorem mp4_run_units_success_count (units : List Mp4Unit) :
    ∀ fs : FileState,
      (run_units units fs).success = (run_units units fs).outcomes.count true := by
  induction units with
  | nil => intro fs; rfl
  | cons u rest ih =>
    intro fs
    simp only [run_units, List.count_cons]
    rw [ih]
    cases h : (task_wrapper u fs).1 with
    | false => simp
    | true => simp; omega

end Mp4ToMp3

/-- Claim C3: for both converters, `process_folders_parallel` returns a
pair with `success ≤ total`, `total` equal to the number of discovered
units, and exactly one tallied outcome per discovered unit (so
`total = success + failed`); with zero units it returns `(0, 0)` having
ensured the output directory exists, with no file-state change, no encoder
invocation, and no callback event. -/
theorem claim_C3_batch_tally_invariants (bunits : List BiliAudio.BiliUnit)
    (munits : List Mp4ToMp3.Mp4Unit) (fs fs' : FileState) :
    ((BiliAudio.process_folders_parallel bunits fs).total = bunits.length ∧
      (BiliAudio.process_folders_parallel bunits fs).success ≤
        (BiliAudio.process_folders_parallel bunits fs).total ∧
      (BiliAudio.process_folders_parallel bunits fs).outcomes.length =
        (BiliAudio.process_folders_parallel bunits fs).total ∧
      (BiliAudio.process_folders_parallel bunits fs).success +
          (BiliAudio.process_folders_parallel bunits fs).outcomes.count false =
        (BiliAudio.process_folders_parallel bunits fs).total ∧
      BiliAudio.process_folders_parallel [] fs = ⟨0, 0, fs, 0, [], [], true⟩) ∧
      ((Mp4ToMp3.process_folders_parallel munits fs').total = munits.length ∧
        (Mp4ToMp3.process_folders_parallel munits fs').success ≤
          (Mp4ToMp3.process_folders_parallel munits fs').total ∧
        (Mp4ToMp3.process_folders_parallel munits fs').outcomes.length =
          (Mp4ToMp3.process_folders_parallel munits fs').total ∧
        (Mp4ToMp3.process_folders_parallel munits fs').success +
            (Mp4ToMp3.process_folders_parallel munits fs').outcomes.count false =
          (Mp4ToMp3.process_folders_parallel munits fs').total ∧
        Mp4ToMp3.process_folders_parallel [] fs' = ⟨0, 0, fs', 0, [], [], true⟩) := by
  constructor
  · rcases bunits with _ | ⟨u, rest⟩
    · exact ⟨rfl, Nat.le_refl 0, rfl, rfl, rfl⟩
    · simp only [BiliAudio.process_folders_parallel, List.isEmpty_cons,
        Bool.false_eq_true, if_false]
      have hlen := BiliAudio.run_units_outcomes_length (u :: rest) fs
      have hcnt := BiliAudio.run_units_success_count (u :: rest) fs
      have hsplit := bool_count_true_add_false (BiliAudio.run_units (u :: rest) fs).outcomes
      refine ⟨by trivial, ?_, ?_, ?_, by trivial⟩
      · rw [hcnt, ← hlen]
        exact List.count_le_length _ _
      · exact hlen
      · rw [hcnt, ← hlen]
        exact hsplit
  · rcases munits with _ | ⟨u, rest⟩
    · exact ⟨rfl, Nat.le_refl 0, rfl, rfl, rfl⟩
    · simp only [Mp4ToMp3.process_folders_parallel, List.isEmpty_cons,
        Bool.false_eq_true, if_false]
      have hlen := Mp4ToMp3.mp4_run_units_outcomes_length (u :: rest) fs'
      have hcnt := Mp4ToMp3.mp4_run_units_success_count (u :: rest) fs'
      have hsplit := bool_count_true_add_false (Mp4ToMp3.run_units (u :: rest) fs').outcomes
      refine ⟨by trivial, ?_, ?_, ?_, by trivial⟩
      · rw [hcnt, ← hlen]
        exact List.count_le_length _ _
      · exact hlen
      · rw [hcnt, ← hlen]
        exact hsplit

/-- Claim C2: in both converters every exception raised inside a unit's
work — name resolution (caught inside `extract_title_name` itself),
audio lookup, output-directory creation, or encoder invocation — is caught
at the unit boundary and converted into a failed outcome (`False` returned,
`False` reported to the callback); `process_single_file` is a total
function into outcomes, so no such exception ever reaches its caller. -/
theorem claim_C2_exceptions_caught_at_unit_boundary (u : BiliAudio.BiliUnit)
    (v : Mp4ToMp3.Mp4Unit) (fs fs' : FileState) :
    (∀ e : PyExc, BiliAudio.process_body u fs = .error e →
        BiliAudio.process_single_file u fs = ⟨false, fs, 0, [false]⟩) ∧
      (∀ e : PyExc, u.descriptor = .error e →
        (BiliAudio.process_single_file u fs).success = false) ∧
      (∀ e : PyExc, Mp4ToMp3.process_body v fs' = .error e →
        Mp4ToMp3.process_single_file v fs' = ⟨false, fs', false, 0, [false]⟩) ∧
      (∀ e : PyExc, (v.demux = .error e ∨ v.convert = .error e) →
        fileExistsPos fs' (Mp4ToMp3.get_video_name v.baseName ++ ".mp3") = false →
        (Mp4ToMp3.process_single_file v fs').success = false) := by
  refine ⟨?_, ?_, ?_, ?_⟩
  · intro e h
    simp only [BiliAudio.process_single_file]
    rw [h]
  · intro e h
    rcases u with ⟨d, a, m, enc⟩
    subst h
    rfl
  · intro e h
    simp only [Mp4ToMp3.process_single_file]
    rw [h]
  · intro e hd hfe
    rcases v with ⟨n, m, d, w, c, r⟩
    simp only [Mp4ToMp3.get_video_name] at hfe
    by_cases hn : sanitizeName n = ""
    · simp [Mp4ToMp3.process_single_file, Mp4ToMp3.process_body,
        Mp4ToMp3.get_video_name, hn]
    rcases m with em | mu
    · simp [Mp4ToMp3.process_single_file, Mp4ToMp3.process_body,
        Mp4ToMp3.get_video_name, hn]
    rcases d with ed | bd
    · simp [Mp4ToMp3.process_single_file, Mp4ToMp3.process_body,
        Mp4ToMp3.get_video_name, hn, hfe]
    cases bd
    · simp [Mp4ToMp3.process_single_file, Mp4ToMp3.process_body,
        Mp4ToMp3.get_video_name, hn, hfe]
    rcases hd with hd | hc
    · exact absurd hd (by simp)
    · subst hc
      simp [Mp4ToMp3.process_single_file, Mp4ToMp3.process_body,
        Mp4ToMp3.get_video_name, hn, hfe]

/-- Witness for claim C2 at concrete units: a raising audio lookup in the
descriptor-based converter, and a raising `os.makedirs` and a raising demux
invocation in the direct-media converter, all end in a failed outcome. -/
theorem claim_C2_witness :
    BiliAudio.process_single_file
        ⟨Except.ok (some "a"), Except.error ⟨"io"⟩, Except.ok (), Except.ok true⟩ [] =
        ⟨false, [], 0, [false]⟩ ∧
      (BiliAudio.process_single_file
          ⟨Except.error ⟨"bad json"⟩, Except.ok (some "x"), Except.ok (),
            Except.ok true⟩ []).success = false ∧
      Mp4ToMp3.process_single_file
          ⟨"clip", Except.error ⟨"io"⟩, Except.ok true, true, Except.ok true, true⟩ [] =
        ⟨false, [], false, 0, [false]⟩ ∧
      (Mp4ToMp3.process_single_file
          ⟨"clip", Except.ok (), Except.error ⟨"spawn"⟩, false, Except.ok true,
            true⟩ []).success = false :=
  ⟨(claim_C2_exceptions_caught_at_unit_boundary
      ⟨Except.ok (some "a"), Except.error ⟨"io"⟩, Except.ok (), Except.ok true⟩
      ⟨"clip", Except.error ⟨"io"⟩, Except.ok true, true, Except.ok true, true⟩
      [] []).1 ⟨"io"⟩ (by decide),
    (claim_C2_exceptions_caught_at_unit_boundary
      ⟨Except.error ⟨"bad json"⟩, Except.ok (some "x"), Except.ok (), Except.ok true⟩
      ⟨"clip", Except.error ⟨"io"⟩, Except.ok true, true, Except.ok true, true⟩
      [] []).2.1 ⟨"bad json"⟩ rfl,
    (claim_C2_exceptions_caught_at_unit_boundary
      ⟨Except.ok (some "a"), Except.error ⟨"io"⟩, Except.ok (), Except.ok true⟩
      ⟨"clip", Except.error ⟨"io"⟩, Except.ok true, true, Except.ok true, true⟩
      [] []).2.2.1 ⟨"io"⟩ (by decide),
    (claim_C2_exceptions_caught_at_unit_boundary
      ⟨Except.ok (some "a"), Except.error ⟨"io"⟩, Except.ok (), Except.ok true⟩
      ⟨"clip", Except.ok (), Except.error ⟨"spawn"⟩, false, Except.ok true, true⟩
      [] []).2.2.2 ⟨"spawn"⟩ (Or.inl rfl) (by decide)⟩

/-- Claim C6 counterexample: a descriptor that parses but lacks the title
field does NOT yield a failed unit — `data.get('title', 'untitled')`
substitutes the default name `untitled`, and the unit proceeds and can
succeed. -/
theorem claim_C6_counterexample :
    BiliAudio.extract_title_name (Except.ok none) = some "untitled" ∧
      (BiliAudio.process_single_file
          ⟨Except.ok none, Except.ok (some "x"), Except.ok (), Except.ok true⟩
          []).success = true := by
  decide

/-- Claim C6 (amended): a descriptor file that fails to parse yields a unit
that fails at conversion time (with its reason printed) rather than
aborting the walk; a descriptor that parses but lacks the title field is
instead given the default display name `untitled` and processed normally. -/
theorem claim_C6_amended_parse_failure_fails_unit (u : BiliAudio.BiliUnit)
    (fs : FileState) :
    (∀ e : PyExc, u.descriptor = .error e →
        (BiliAudio.process_single_file u fs).success = false ∧
          (BiliAudio.process_single_file u fs).events = [false]) ∧
      BiliAudio.extract_title_name (Except.ok none) = some "untitled" := by
  constructor
  · intro e h
    rcases u with ⟨d, a, m, enc⟩
    subst h
    exact ⟨rfl, rfl⟩
  · decide

/-- Witness for claim C6 (amended) at a concrete unit whose descriptor
raised during parsing. -/
theorem claim_C6_witness :
    (BiliAudio.process_single_file
        ⟨Except.error ⟨"json decode error"⟩, Except.ok (some "x"), Except.ok (),
          Except.ok true⟩ []).success = false :=
  ((claim_C6_amended_parse_failure_fails_unit
      ⟨Except.error ⟨"json decode error"⟩, Except.ok (some "x"), Except.ok (),
        Except.ok true⟩ []).1 ⟨"json decode error"⟩ rfl).1

/-- Claim C7: when `max_workers` is `None`, `mp4Tomp3.py` picks
`max(1, logical_cores - 1)`, which is at least 1 for every logical CPU
count; `biliAudioToMp3_.py`, however, picks the bare `logical_cores - 1`,
which is 0 on a single-core machine (and `ThreadPoolExecutor` rejects a
pool size of 0), contradicting the documented minimum of 1 that the sister
script implements and comments (`确保至少1个线程`). -/
theorem claim_C7_default_pool_size :
    BiliAudio.default_max_workers 1 = 0 ∧
      Mp4ToMp3.default_max_workers 1 = 1 ∧
      ∀ logical_cores : Nat, 1 ≤ Mp4ToMp3.default_max_workers logical_cores :=
  ⟨rfl, rfl, fun _ => le_max_left 1 _⟩

example :
    BiliAudio.process_single_file
      ⟨Except.ok (some "a"), Except.ok none, Except.ok (), Except.ok true⟩
      [("a.mp3", 5)] = ⟨false, [("a.mp3", 5)], 0, [false]⟩ := by decide

example : sanitizeName "Ep 1: Intro?" = "Ep 1 Intro" := by decide

/-! Helper lemmas for the idempotent-skip analysis. -/

theorem fileExistsPos_cons (fs : FileState) (k n : String) (v : Nat) (hv : 0 < v)
    (h : fileExistsPos fs n = true) : fileExistsPos ((k, v) :: fs) n = true := by
  simp only [fileExistsPos, List.lookup]
  cases hk : n == k
  · simpa [fileExistsPos] using h
  · simpa using hv

theorem fileExistsPos_cons_self (fs : FileState) (k : String) (v : Nat) (hv : 0 < v) :
    fileExistsPos ((k, v) :: fs) k = true := by
  simp [fileExistsPos, List.lookup, hv]

namespace BiliAudio

theorem process_preserves_files (u : BiliUnit) (fs : FileState) (n : String)
    (h : fileExistsPos fs n = true) :
    fileExistsPos (process_single_file u fs).fs n = true := by
  rcases u with ⟨d, a, m, e⟩
  rcases d with ed | t
  · exact h
  by_cases hn : sanitizeName (t.getD "untitled") = ""
  · simpa [process_single_file, process_body, extract_title_name, hn] using h
  rcases a with ea | oa
  · simpa [process_single_file, process_body, extract_title_name, hn] using h
  rcases oa with _ | pa
  · simpa [process_single_file, process_body, extract_title_name, hn] using h
  rcases m with em | mu
  · simpa [process_single_file, process_body, extract_title_name, hn] using h
  by_cases hf : fileExistsPos fs (sanitizeName (t.getD "untitled") ++ ".mp3") = true
  · simpa [process_single_file, process_body, extract_title_name, hn, hf] using h
  rcases e with ee | be
  · simpa [process_single_file, process_body, extract_title_name, hn, hf] using h
  cases be
  · simpa [process_single_file, process_body, extract_title_name, hn, hf] using h
  · simp only [process_single_file, process_body, extract_title_name, hn, hf]
    exact fileExistsPos_cons fs _ n 1 (by omega) h

theorem run_units_preserves_files (units : List BiliUnit) :
    ∀ (fs : FileState) (n : String), fileExistsPos fs n = true →
      fileExistsPos (run_units units fs).fs n = true := by
  induction units with
  | nil => intro fs n h; exact h
  | cons u rest ih =>
    intro fs n h
    simp only [run_units]
    exact ih _ n (process_preserves_files u fs n h)

theorem process_success_shape (u : BiliUnit) (fs : FileState)
    (h : (process_single_file u fs).success = true) :
    ∃ name pa, extract_title_name u.descriptor = some name ∧ name ≠ "" ∧
      u.findAudio = Except.ok (some pa) ∧ u.makedirs = Except.ok () ∧
      fileExistsPos (process_single_file u fs).fs (name ++ ".mp3") = true := by
  rcases u with ⟨d, a, m, e⟩
  rcases d with ed | t
  · exact absurd h (by simp [process_single_file, process_body, extract_title_name])
  by_cases hn : sanitizeName (t.getD "untitled") = ""
  · exact absurd h
      (by simp [process_single_file, process_body, extract_title_name, hn])
  rcases a with ea | oa
  · exact absurd h
      (by simp [process_single_file, process_body, extract_title_name, hn])
  rcases oa with _ | pa
  · exact absurd h
      (by simp [process_single_file, process_body, extract_title_name, hn])
  rcases m with em | mu
  · exact absurd h
      (by simp [process_single_file, process_body, extract_title_name, hn])
  by_cases hf : fileExistsPos fs (sanitizeName (t.getD "untitled") ++ ".mp3") = true
  · refine ⟨sanitizeName (t.getD "untitled"), pa, rfl, hn, rfl, rfl, ?_⟩
    simp [process_single_file, process_body, extract_title_name, hn, hf]
  rcases e with ee | be
  · exact absurd h
      (by simp [process_single_file, process_body, extract_title_name, hn, hf])
  cases be
  · exact absurd h
      (by simp [process_single_file, process_body, extract_title_name, hn, hf])
  · refine ⟨sanitizeName (t.getD "untitled"), pa, rfl, hn, rfl, rfl, ?_⟩
    simp only [process_single_file, process_body, extract_title_name, hn, hf]
    exact fileExistsPos_cons_self fs _ 1 (by omega)

theorem process_skip (u : BiliUnit) (fs : FileState) (name pa : String)
    (hn : extract_title_name u.descriptor = some name) (hne : name ≠ "")
    (ha : u.findAudio = Except.ok (some pa)) (hm : u.makedirs = Except.ok ())
    (hf : fileExistsPos fs (name ++ ".mp3") = true) :
    process_single_file u fs = ⟨true, fs, 0, [true]⟩ := by
  rcases u with ⟨d, a, m, e⟩
  simp only at hn ha hm
  subst ha
  subst hm
  rcases d with ed | t
  · exact absurd hn (by simp [extract_title_name])
  · have hname : sanitizeName (t.getD "untitled") = name := by
      simpa [extract_title_name] using hn
    simp [process_single_file, process_body, extract_title_name, hname, hne, hf]

end BiliAudio

namespace BiliAudio

theorem run_units_success_le (units : List BiliUnit) (fs : FileState) :
    (run_units units fs).success ≤ units.length := by
  rw [run_units_success_count units fs, ← run_units_outcomes_length units fs]
  exact List.count_le_length _ _

theorem run_units_rerun (units : List BiliUnit) :
    ∀ fs : FileState, (run_units units fs).success = units.length →
      (run_units units (run_units units fs).fs).success = units.length ∧
        (run_units units (run_units units fs).fs).fs = (run_units units fs).fs ∧
        (run_units units (run_units units fs).fs).encoderCalls = 0 := by
  induction units with
  | nil => intro fs h; exact ⟨rfl, rfl, rfl⟩
  | cons u rest ih =>
    intro fs h
    have hle := run_units_success_le rest (process_single_file u fs).fs
    simp only [run_units, List.length_cons] at h
    have ho : (process_single_file u fs).success = true := by
      cases hs : (process_single_file u fs).success
      · rw [hs] at h
        simp at h
        omega
      · rfl
    rw [ho] at h
    simp at h
    have hrs : (run_units rest (process_single_file u fs).fs).success = rest.length := by
      omega
    obtain ⟨name, pa, hn, hne, ha, hm, hfile⟩ := process_success_shape u fs ho
    have hfile2 := run_units_preserves_files rest ((process_single_file u fs).fs)
      (name ++ ".mp3") hfile
    have hskip := process_skip u (run_units rest (process_single_file u fs).fs).fs
      name pa hn hne ha hm hfile2
    have ih2 := ih ((process_single_file u fs).fs) hrs
    simp only [run_units, List.length_cons]
    simp only [hskip]
    refine ⟨?_, ?_, ?_⟩
    · simp [ih2.1]
      omega
    · exact ih2.2.1
    · simp [ih2.2.2]

end BiliAudio

namespace Mp4ToMp3

theorem mp4_process_preserves_files (u : Mp4Unit) (fs : FileState) (q : String)
    (h : fileExistsPos fs q = true) :
    fileExistsPos (process_single_file u fs).fs q = true := by
  rcases u with ⟨n, m, d, w, c, r⟩
  by_cases hn : sanitizeName n = ""
  · simpa [process_single_file, process_body, get_video_name, hn] using h
  rcases m with em | mu
  · simpa [process_single_file, process_body, get_video_name, hn] using h
  by_cases hf : fileExistsPos fs (sanitizeName n ++ ".mp3") = true
  · simpa [process_single_file, process_body, get_video_name, hn, hf] using h
  rcases d with ed | bd
  · simpa [process_single_file, process_body, get_video_name, hn, hf] using h
  cases bd
  · simpa [process_single_file, process_body, get_video_name, hn, hf] using h
  rcases c with ec | bc
  · simpa [process_single_file, process_body, get_video_name, hn, hf] using h
  cases bc
  · simpa [process_single_file, process_body, get_video_name, hn, hf] using h
  · simp only [process_single_file, process_body, get_video_name, hn, hf]
    exact fileExistsPos_cons fs _ q 1 (by omega) h

theorem mp4_run_units_preserves_files (units : List Mp4Unit) :
    ∀ (fs : FileState) (q : String), fileExistsPos fs q = true →
      fileExistsPos (run_units units fs).fs q = true := by
  induction units with
  | nil => intro fs q h; exact h
  | cons u rest ih =>
    intro fs q h
    simp only [run_units, task_wrapper]
    exact ih _ q (mp4_process_preserves_files u fs q h)

theorem mp4_process_success_shape (u : Mp4Unit) (fs : FileState)
    (h : (process_single_file u fs).success = true) :
    get_video_name u.baseName ≠ "" ∧ u.makedirs = Except.ok () ∧
      fileExistsPos (process_single_file u fs).fs
        (get_video_name u.baseName ++ ".mp3") = true := by
  rcases u with ⟨n, m, d, w, c, r⟩
  by_cases hn : sanitizeName n = ""
  · exact absurd h (by simp [process_single_file, process_body, get_video_name, hn])
  rcases m with em | mu
  · exact absurd h (by simp [process_single_file, process_body, get_video_name, hn])
  by_cases hf : fileExistsPos fs (sanitizeName n ++ ".mp3") = true
  · refine ⟨hn, rfl, ?_⟩
    simp [process_single_file, process_body, get_video_name, hn, hf]
  rcases d with ed | bd
  · exact absurd h
      (by simp [process_single_file, process_body, get_video_name, hn, hf])
  cases bd
  · exact absurd h
      (by simp [process_single_file, process_body, get_video_name, hn, hf])
  rcases c with ec | bc
  · exact absurd h
      (by simp [process_single_file, process_body, get_video_name, hn, hf])
  cases bc
  · exact absurd h
      (by simp [process_single_file, process_body, get_video_name, hn, hf])
  · refine ⟨hn, rfl, ?_⟩
    simp only [process_single_file, process_body, get_video_name, hn, hf]
    exact fileExistsPos_cons_self fs _ 1 (by omega)

theorem mp4_process_skip (u : Mp4Unit) (fs : FileState)
    (hn : get_video_name u.baseName ≠ "") (hm : u.makedirs = Except.ok ())
    (hf : fileExistsPos fs (get_video_name u.baseName ++ ".mp3") = true) :
    process_single_file u fs = ⟨true, fs, false, 0, [true]⟩ := by
  rcases u with ⟨n, m, d, w, c, r⟩
  simp only [get_video_name] at hn hf
  simp only at hm
  subst hm
  simp [process_single_file, process_body, get_video_name, hn, hf]

theorem mp4_run_units_success_le (units : List Mp4Unit) (fs : FileState) :
    (run_units units fs).success ≤ units.length := by
  rw [mp4_run_units_success_count units fs, ← mp4_run_units_outcomes_length units fs]
  exact List.count_le_length _ _

theorem mp4_run_units_rerun (units : List Mp4Unit) :
    ∀ fs : FileState, (run_units units fs).success = units.length →
      (run_units units (run_units units fs).fs).success = units.length ∧
        (run_units units (run_units units fs).fs).fs = (run_units units fs).fs ∧
        (run_units units (run_units units fs).fs).encoderCalls = 0 := by
  induction units with
  | nil => intro fs h; exact ⟨rfl, rfl, rfl⟩
  | cons u rest ih =>
    intro fs h
    have hle := mp4_run_units_success_le rest (process_single_file u fs).fs
    simp only [run_units, task_wrapper, List.length_cons] at h
    have ho : (process_single_file u fs).success = true := by
      cases hs : (process_single_file u fs).success
      · simp only [hs] at h
        simp at h
        omega
      · rfl
    simp only [ho] at h
    simp at h
    have hrs : (run_units rest (process_single_file u fs).fs).success = rest.length := by
      omega
    obtain ⟨hne, hm, hfile⟩ := mp4_process_success_shape u fs ho
    have hfile2 := mp4_run_units_preserves_files rest ((process_single_file u fs).fs)
      (get_video_name u.baseName ++ ".mp3") hfile
    have hskip := mp4_process_skip u (run_units rest (process_single_file u fs).fs).fs
      hne hm hfile2
    have ih2 := ih ((process_single_file u fs).fs) hrs
    simp only [run_units, task_wrapper, List.length_cons]
    simp only [hskip]
    refine ⟨?_, ?_, ?_⟩
    · simp [ih2.1]
      omega
    · exact ih2.2.1
    · simp [ih2.2.2]

end Mp4ToMp3

/-- Claim C1 (amended): for a unit whose sanitized name is non-empty, whose
audio lookup finds a stream, and whose output-directory creation succeeds
(in the direct-media converter: name non-empty and directory creation
succeeds), a destination file that already exists with non-zero size makes
`process_single_file` return success immediately with zero encoder
invocations; consequently, when every unit of a batch run succeeded, a
second run over the same inputs and outputs yields the same succeeded count
with zero additional encoder invocations.  (As literally stated the claim
is false: the skip check runs only after the audio lookup and directory
creation, and a second run re-invokes the encoder for units that failed the
first time — see the counterexample.) -/
theorem claim_C1_amended_skip_and_second_run :
    (∀ (u : BiliAudio.BiliUnit) (fs : FileState) (name pa : String),
        BiliAudio.extract_title_name u.descriptor = some name → name ≠ "" →
        u.findAudio = Except.ok (some pa) → u.makedirs = Except.ok () →
        fileExistsPos fs (name ++ ".mp3") = true →
        BiliAudio.process_single_file u fs = ⟨true, fs, 0, [true]⟩) ∧
      (∀ (v : Mp4ToMp3.Mp4Unit) (fs : FileState),
        Mp4ToMp3.get_video_name v.baseName ≠ "" → v.makedirs = Except.ok () →
        fileExistsPos fs (Mp4ToMp3.get_video_name v.baseName ++ ".mp3") = true →
        Mp4ToMp3.process_single_file v fs = ⟨true, fs, false, 0, [true]⟩) ∧
      (∀ (units : List BiliAudio.BiliUnit) (fs : FileState),
        (BiliAudio.process_folders_parallel units fs).success =
          (BiliAudio.process_folders_parallel units fs).total →
        (BiliAudio.process_folders_parallel units
              (BiliAudio.process_folders_parallel units fs).fs).success =
            (BiliAudio.process_folders_parallel units fs).success ∧
          (BiliAudio.process_folders_parallel units
              (BiliAudio.process_folders_parallel units fs).fs).encoderCalls = 0) ∧
      (∀ (units : List Mp4ToMp3.Mp4Unit) (fs : FileState),
        (Mp4ToMp3.process_folders_parallel units fs).success =
          (Mp4ToMp3.process_folders_parallel units fs).total →
        (Mp4ToMp3.process_folders_parallel units
              (Mp4ToMp3.process_folders_parallel units fs).fs).success =
            (Mp4ToMp3.process_folders_parallel units fs).success ∧
          (Mp4ToMp3.process_folders_parallel units
              (Mp4ToMp3.process_folders_parallel units fs).fs).encoderCalls = 0) := by
  refine ⟨?_, ?_, ?_, ?_⟩
  · intro u fs name pa hn hne ha hm hf
    exact BiliAudio.process_skip u fs name pa hn hne ha hm hf
  · intro v fs hn hm hf
    exact Mp4ToMp3.mp4_process_skip v fs hn hm hf
  · intro units fs h
    rcases units with _ | ⟨u, rest⟩
    · exact ⟨rfl, rfl⟩
    · simp only [BiliAudio.process_folders_parallel, List.isEmpty_cons,
        Bool.false_eq_true, if_false] at h ⊢
      have hr := BiliAudio.run_units_rerun (u :: rest) fs h
      exact ⟨hr.1.trans h.symm, hr.2.2⟩
  · intro units fs h
    rcases units with _ | ⟨u, rest⟩
    · exact ⟨rfl, rfl⟩
    · simp only [Mp4ToMp3.process_folders_parallel, List.isEmpty_cons,
        Bool.false_eq_true, if_false] at h ⊢
      have hr := Mp4ToMp3.mp4_run_units_rerun (u :: rest) fs h
      exact ⟨hr.1.trans h.symm, hr.2.2⟩

/-- Claim C1 counterexample: first, a unit with the non-empty sanitized
name `a` whose destination `a.mp3` already exists with size 5, but whose
audio lookup finds nothing — `process_single_file` returns failure instead
of the claimed immediate success; second, a batch of one unit whose encoder
exits non-zero — running the batch a second time over the same inputs and
outputs performs 1 further encoder invocation, not 0. -/
theorem claim_C1_counterexample :
    ((BiliAudio.process_single_file
          ⟨Except.ok (some "a"), Except.ok none, Except.ok (), Except.ok true⟩
          [("a.mp3", 5)]).success = false ∧
      BiliAudio.extract_title_name (Except.ok (some "a")) = some "a" ∧
      fileExistsPos [("a.mp3", 5)] ("a" ++ ".mp3") = true) ∧
      (BiliAudio.process_folders_parallel
          [⟨Except.ok (some "b"), Except.ok (some "x"), Except.ok (),
            Except.ok false⟩]
          (BiliAudio.process_folders_parallel
            [⟨Except.ok (some "b"), Except.ok (some "x"), Except.ok (),
              Except.ok false⟩] []).fs).encoderCalls = 1 := by
  decide

/-- Witness for claim C1 (amended): a concrete skip in each converter, and
a concrete all-successful one-unit batch whose second run adds no encoder
invocation. -/
theorem claim_C1_witness :
    BiliAudio.process_single_file
        ⟨Except.ok (some "a"), Except.ok (some "x"), Except.ok (), Except.ok true⟩
        [("a.mp3", 5)] = ⟨true, [("a.mp3", 5)], 0, [true]⟩ ∧
      Mp4ToMp3.process_single_file
          ⟨"clip", Except.ok (), Except.ok true, true, Except.ok true, true⟩
          [("clip.mp3", 7)] = ⟨true, [("clip.mp3", 7)], false, 0, [true]⟩ ∧
      ((BiliAudio.process_folders_parallel
            [⟨Except.ok (some "a"), Except.ok (some "x"), Except.ok (),
              Except.ok true⟩]
            (BiliAudio.process_folders_parallel
              [⟨Except.ok (some "a"), Except.ok (some "x"), Except.ok (),
                Except.ok true⟩] []).fs).success =
          (BiliAudio.process_folders_parallel
            [⟨Except.ok (some "a"), Except.ok (some "x"), Except.ok (),
              Except.ok true⟩] []).success ∧
        (BiliAudio.process_folders_parallel
            [⟨Except.ok (some "a"), Except.ok (some "x"), Except.ok (),
              Except.ok true⟩]
            (BiliAudio.process_folders_parallel
              [⟨Except.ok (some "a"), Except.ok (some "x"), Except.ok (),
                Except.ok true⟩] []).fs).encoderCalls = 0) ∧
      ((Mp4ToMp3.process_folders_parallel
            [⟨"clip", Except.ok (), Except.ok true, true, Except.ok true, true⟩]
            (Mp4ToMp3.process_folders_parallel
              [⟨"clip", Except.ok (), Except.ok true, true, Except.ok true, true⟩]
              []).fs).success =
          (Mp4ToMp3.process_folders_parallel
            [⟨"clip", Except.ok (), Except.ok true, true, Except.ok true, true⟩]
            []).success ∧
        (Mp4ToMp3.process_folders_parallel
            [⟨"clip", Except.ok (), Except.ok true, true, Except.ok true, true⟩]
            (Mp4ToMp3.process_folders_parallel
              [⟨"clip", Except.ok (), Except.ok true, true, Except.ok true, true⟩]
              []).fs).encoderCalls = 0) :=
  ⟨claim_C1_amended_skip_and_second_run.1
      ⟨Except.ok (some "a"), Except.ok (some "x"), Except.ok (), Except.ok true⟩
      [("a.mp3", 5)] "a" "x" (by decide) (by decide) rfl rfl (by decide),
    claim_C1_amended_skip_and_second_run.2.1
      ⟨"clip", Except.ok (), Except.ok true, true, Except.ok true, true⟩
      [("clip.mp3", 7)] (by decide) rfl (by decide),
    claim_C1_amended_skip_and_second_run.2.2.1
      [⟨Except.ok (some "a"), Except.ok (some "x"), Except.ok (), Except.ok true⟩]
      [] (by decide),
    claim_C1_amended_skip_and_second_run.2.2.2
      [⟨"clip", Except.ok (), Except.ok true, true, Except.ok true, true⟩]
      [] (by decide)⟩
